import Mathlib

/-!
Verification of the ornament selection engine
(`src/AGI_Evolutive/language/renderer.py`, class `LanguageRenderer`).

The Python module is shallowly embedded below.  Strings are modelled as
lists of unicode scalar values (`List Char`), which matches Python's
code-point view of `str` (`len`, indexing and `re` all operate on code
points).  Python floats appearing in the module are plain decimal
constants combined by `+ - * /` and comparisons only, with every value
exactly representable, so they are modelled as rationals (`ℚ`).
`str.lower` is modelled on the Latin-1 repertoire (the only characters
the tokenizer's character class `[A-Za-zÀ-ÿ]` can accept).
-/

/-! ## Characters and tokenization (`_tokens`, renderer.py lines 9-10) -/

/-- Strings as lists of unicode scalar values. -/
abbrev Str := List Char

/-- Membership in the regex character class `[A-Za-zÀ-ÿ]` of `_tokens`
(code points 65-90, 97-122 and 192-255). -/
def isTokChar (c : Char) : Bool :=
  (65 ≤ c.toNat && c.toNat ≤ 90) || (97 ≤ c.toNat && c.toNat ≤ 122) ||
    (192 ≤ c.toNat && c.toNat ≤ 255)

/-- Lowercasing of one code point, as `str.lower` acts on the Latin-1
repertoire: `A`-`Z` and `À`-`Þ` (except `×`, code point 215) shift by 32,
everything else is fixed. -/
def lowerNat (n : ℕ) : ℕ :=
  if 65 ≤ n ∧ n ≤ 90 then n + 32
  else if 192 ≤ n ∧ n ≤ 222 ∧ n ≠ 215 then n + 32
  else n

/-- Lowercasing on `Char` (see `lowerNat`). -/
def lowerChar (c : Char) : Char := Char.ofNat (lowerNat c.toNat)

/-- Maximal runs of characters satisfying `isTokChar`; `cur` is the
current run, accumulated in reverse.  This models the greedy matching of
`re.findall` with the pattern of `_tokens`. -/
def tokenRunsAux : List Char → List Char → List Str
  | [], cur => if cur = [] then [] else [cur.reverse]
  | c :: cs, cur =>
    if isTokChar c then tokenRunsAux cs (c :: cur)
    else if cur = [] then tokenRunsAux cs []
    else cur.reverse :: tokenRunsAux cs []

/-- Maximal runs of token characters of a string. -/
def tokenRuns (s : Str) : List Str := tokenRunsAux s []

/-- Embedding of `_tokens` (renderer.py line 9):
`set(re.findall(r"[A-Za-zÀ-ÿ]{3,}", (s or "").lower()))`.  The greedy
regex with no anchors returns exactly the maximal runs of class
characters having length at least 3. -/
def _tokens (s : Str) : Finset Str :=
  ((tokenRuns (s.map lowerChar)).filter (fun t => 3 ≤ t.length)).toFinset

/-- Jaccard score as written inline at renderer.py line 67:
`len(utoks & mtoks) / max(1, len(utoks | mtoks))`. -/
def jaccard (u m : Finset Str) : ℚ :=
  ((u ∩ m).card : ℚ) / (max 1 ((u ∪ m).card) : ℚ)

/-! ## Past-moment selection (`_pick_relevant_moment`, lines 57-70) -/

/-- Python's `l[-n:]`: the last at most `n` elements. -/
def lastN (n : ℕ) (l : List Str) : List Str := l.drop (l.length - n)

/-- Loop body of `_pick_relevant_moment` (lines 62-69): scan the window,
skip moments with no tokens, keep the first strict improvement of the
running best score. -/
def pickLoop (utoks : Finset Str) : List Str → Str × ℚ → Str × ℚ
  | [], acc => acc
  | m :: ms, acc =>
    if _tokens m = ∅ then pickLoop utoks ms acc
    else if acc.2 < jaccard utoks (_tokens m) then
      pickLoop utoks ms (m, jaccard utoks (_tokens m))
    else pickLoop utoks ms acc

/-- Embedding of `_pick_relevant_moment` (lines 57-70): best moment of
the last 8 (`moments[-8:]`) by Jaccard score against the user message,
starting from `("", 0.0)`. -/
def _pick_relevant_moment (userMsg : Str) (keyMoments : List Str) : Str × ℚ :=
  if keyMoments = [] then ([], 0)
  else pickLoop (_tokens userMsg) (lastN 8 keyMoments) ([], 0)

/-! ## Collocation selection (`_pick_collocation`, lines 73-79) -/

/-- Embedding of `_pick_collocation` (lines 73-79); `cand` is the value
returned by `lex.sample_collocation(novelty=0.3)`, with `[]` for a falsy
result.  The relevance is `len(_tokens(cand) & topics) / max(1,
len(_tokens(cand)))`; note `topics` is the raw topic set, not further
tokenized. -/
def _pick_collocation (topics : Finset Str) (cand : Str) : Str × ℚ :=
  if cand = [] then ([], 0)
  else (cand, ((_tokens cand ∩ topics).card : ℚ) / (max 1 ((_tokens cand).card) : ℚ))

/-! ## First compile checkpoint lemmas -/

/-! ## Styles, context and budget (`_budget_chars`, lines 40-49) -/

/-- Snapshot returned by `self.voice.style()`: the numeric traits the
renderer reads, each `none` when the key is absent (the code supplies a
default at each `.get`). -/
structure VoiceStyle where
  formality : Option ℚ
  warmth : Option ℚ
  emoji : Option ℚ
  conciseness : Option ℚ
deriving DecidableEq

/-- The `user_style` mapping inside the context; `prefers_long` is
`none` when the key is absent. -/
structure UserStyle where
  prefers_long : Option Bool
deriving DecidableEq

/-- Read-only per-call context `ctx` (recognized keys only). -/
structure Ctx where
  userStyle : Option UserStyle
  lastMessage : Option Str
  keyMoments : List Str
  topics : Finset Str
deriving DecidableEq

/-- The value of `(ctx.get("user_style") or {}).get("prefers_long")`. -/
def userPrefersLong (ctx : Ctx) : Option Bool :=
  match ctx.userStyle with
  | none => none
  | some u => u.prefers_long

/-- The budget before the final clamp (renderer.py lines 44-48): base
160, plus 80 when `prefers_long` is truthy, minus 60 when the voice's
`conciseness` (default 0.6) exceeds 0.7. -/
def budgetRaw (st : VoiceStyle) (ctx : Ctx) : ℤ :=
  (if userPrefersLong ctx = some true then 160 + 80 else 160) -
    (if (0.7 : ℚ) < st.conciseness.getD 0.6 then 60 else 0)

/-- Embedding of `_budget_chars` (lines 40-49): the raw budget clamped
with `max(0, base)`. -/
def _budget_chars (st : VoiceStyle) (ctx : Ctx) : ℤ := max 0 (budgetRaw st ctx)

/-! ## Confidence (`_confidence`, lines 30-38) -/

/-- Embedding of `_confidence` (lines 30-38): the upstream policy's
confidence when reachable (`some c`), and the neutral default 0.6 when
the probe fails or the attribute is missing (`none`). -/
def _confidence (policyConf : Option ℚ) : ℚ := policyConf.getD 0.6

/-! ## Voice decoration (`_decorate_with_voice`, lines 82-90) -/

/-- Embedding of `_decorate_with_voice` (lines 82-90): greeting when
`formality` (default 0.4) exceeds 0.75 and the lowered text does not
start with "bonjour"/"bonsoir"; warm closing when `warmth` (default
0.6) exceeds 0.75 and the text does not end with "!"; emoji marker when
`emoji` (default 0.2) exceeds 0.6. -/
def _decorate_with_voice (st : VoiceStyle) (text : Str) : Str :=
  let t1 :=
    if (0.75 : ℚ) < st.formality.getD 0.4 ∧
        ¬((text.map lowerChar).take 7 = "bonjour".toList ∨
          (text.map lowerChar).take 7 = "bonsoir".toList) then
      "Bonjour, ".toList ++ text
    else text
  let t2 :=
    if (0.75 : ℚ) < st.warmth.getD 0.6 ∧ t1.getLast? ≠ some '!' then
      t1 ++ " (je reste dispo si besoin)".toList
    else t1
  if (0.6 : ℚ) < st.emoji.getD 0.2 then "🙂 ".toList ++ t2 else t2

/-! ## Semantics, rules and the decision-trace path (lines 149-192) -/

/-- Outcome of resolving `semantics["rule"]` / `semantics["interaction_rule"]`:
`rid` is the identifier found in the rule's dict form (via `to_dict()` or
direct mapping access), with `[]` standing for a falsy or missing `id`;
`hasRegisterUse` records whether the object has a `register_use`
attribute. -/
structure RuleInfo where
  rid : Str
  hasRegisterUse : Bool
deriving DecidableEq

/-- Semantics mapping: the base text (absent key modelled as `none`) and
the optional rule objects under the two recognized keys. -/
structure Semantics where
  text? : Option Str
  rule? : Option RuleInfo
  interactionRule? : Option RuleInfo
deriving DecidableEq

/-- Resolution of the rule object (lines 150-152): the `rule` key when
truthy, otherwise the `interaction_rule` key. -/
def resolveRule (sem : Semantics) : Option RuleInfo :=
  match sem.rule? with
  | some r => some r
  | none => sem.interactionRule?

/-- Reachability and failure injection for the best-effort trace path
(lines 162-192).  Each `…Fails` flag models the corresponding Python
call raising; the enclosing `try`/`except` blocks turn a raise into
skipped writes, never into an error for the caller. -/
structure TraceEnv where
  archPresent : Bool
  memoryPresent : Bool
  buildFails : Bool
  addTraceFails : Bool
  registerUseFails : Bool
  persistFails : Bool
deriving DecidableEq

/-- What the trace path accomplished: whether the decision-trace record
reached `arch.memory.add_memory`, whether `rule_obj.register_use()` ran,
and whether the updated usage payload was persisted. -/
structure TraceOut where
  traceWritten : Bool
  ruleMarkedUsed : Bool
  payloadPersisted : Bool
deriving DecidableEq

/-- The trace outcome on paths that never enter the trace block. -/
def TraceOut.skipped : TraceOut := ⟨false, false, false⟩

/-- Embedding of the decision-trace block (lines 149-192).  A raise at
any step (modelled by the `TraceEnv` flags) is caught by the enclosing
`try`/`except` and truncates the remaining writes; the inner
`try`/`except` around `register_use` and the payload persist lets an
already-written trace record stand. -/
def tracePath (env : TraceEnv) (rule? : Option RuleInfo) : TraceOut :=
  match rule? with
  | none => TraceOut.skipped
  | some r =>
    if r.rid = [] then TraceOut.skipped
    else if ¬env.archPresent ∨ ¬env.memoryPresent then TraceOut.skipped
    else if env.buildFails then TraceOut.skipped
    else if env.addTraceFails then TraceOut.skipped
    else if r.hasRegisterUse then
      if env.registerUseFails then ⟨true, false, false⟩
      else if env.persistFails then ⟨true, true, false⟩
      else ⟨true, true, true⟩
    else ⟨true, false, false⟩

/-! ## The cooldown ledger and `render_reply` (lines 92-194) -/

/-- Mutable per-instance state of the engine: suppression level and
last-used snippet for each ornament kind (renderer.py lines 18-19). -/
structure RState where
  cooldownPast : ℚ
  cooldownColloc : ℚ
  lastPast : Str
  lastColloc : Str
deriving DecidableEq

/-- Embedding of `_decrease_cooldowns` (lines 51-54). -/
def _decrease_cooldowns (s : RState) : RState :=
  { s with cooldownPast := max 0 (s.cooldownPast - 0.34),
           cooldownColloc := max 0 (s.cooldownColloc - 0.34) }

/-- Per-call external inputs of one `render_reply` call that the engine
only reads: the policy confidence probe, the lexicon sample (with `[]`
for a falsy result), the value of `random.random()`, and the voice style
snapshot. -/
structure Oracle where
  policyConf : Option ℚ
  collocCand : Str
  randDraw : ℚ
  style : VoiceStyle
deriving DecidableEq

/-- Everything one call to `render_reply` produces: the returned string,
the successor engine state, which ornament (if any) was appended with
its text, and the outcome of the trace path. -/
structure RenderResult where
  out : Str
  state : RState
  usedPast : Option Str
  usedColloc : Option Str
  trace : TraceOut
deriving DecidableEq

/-- Threshold `past_relevance` of the `THRESH` dict (line 23). -/
def THRESH_past_relevance : ℚ := 0.25
/-- Threshold `colloc_relevance` of the `THRESH` dict (line 24). -/
def THRESH_colloc_relevance : ℚ := 0.20
/-- Threshold `conf_min` of the `THRESH` dict (line 25). -/
def THRESH_conf_min : ℚ := 0.55
/-- Threshold `chance_colloc` of the `THRESH` dict (line 26). -/
def THRESH_chance_colloc : ℚ := 0.35

/-- The collocation attempt probability `p_try` (line 123). -/
def p_try (chance conf : ℚ) : ℚ := chance * (0.6 + 0.6 * conf)

/-- Python whitespace stripped by `str.strip()` (ASCII repertoire). -/
def pySpace (c : Char) : Bool :=
  c = ' ' || c = '\t' || c = '\n' || c = '\r' || c = '\x0b' || c = '\x0c'

/-- Embedding of `str.strip()`. -/
def pyStrip (s : Str) : Str :=
  ((s.dropWhile pySpace).reverse.dropWhile pySpace).reverse

/-- The fixed fallback sentence of line 102. -/
def fallbackText : Str := "Je te réponds en tenant compte de notre historique.".toList

/-- The base reply of line 102: the stripped `text` value, or the
fallback sentence when the key is absent or the stripped value blank. -/
def baseText (sem : Semantics) : Str :=
  if pyStrip (sem.text?.getD []) = [] then fallbackText
  else pyStrip (sem.text?.getD [])

/-- The global short-circuit condition of line 108. -/
abbrev vetoCond (ctx : Ctx) (o : Oracle) : Prop :=
  _confidence o.policyConf < THRESH_conf_min ∨
    _budget_chars o.style ctx < 60 ∨ userPrefersLong ctx = some false

/-- The past candidate of line 112:
`self._pick_relevant_moment(ctx.get("last_message", ""), ctx)`. -/
def pickedPast (ctx : Ctx) : Str × ℚ :=
  _pick_relevant_moment (ctx.lastMessage.getD []) ctx.keyMoments

/-- The collocation candidate of line 122. -/
def pickedColloc (ctx : Ctx) (o : Oracle) : Str × ℚ :=
  _pick_collocation ctx.topics o.collocCand

/-- The `use_past` condition of lines 113-119, evaluated on the decayed
state `s`. -/
abbrev usePast (s : RState) (ctx : Ctx) : Prop :=
  (pickedPast ctx).1 ≠ [] ∧ THRESH_past_relevance ≤ (pickedPast ctx).2 ∧
    s.cooldownPast ≤ 0 ∧ (pickedPast ctx).1 ≠ s.lastPast ∧
    '?' ∉ ctx.lastMessage.getD []

/-- The `use_colloc` condition of lines 124-130, evaluated on the
decayed state `s`. -/
abbrev useColloc (s : RState) (ctx : Ctx) (o : Oracle) : Prop :=
  (pickedColloc ctx o).1 ≠ [] ∧
    o.randDraw < p_try THRESH_chance_colloc (_confidence o.policyConf) ∧
    THRESH_colloc_relevance ≤ (pickedColloc ctx o).2 ∧
    s.cooldownColloc ≤ 0 ∧ (pickedColloc ctx o).1 ≠ s.lastColloc

/-- The formatted past-link snippet of line 135. -/
def pastSnippet (t : Str) : Str := "\n\n↪ En lien : ".toList ++ t

/-- The formatted collocation snippet of line 143. -/
def collocSnippet (t : Str) : Str := "\n\n(".toList ++ t ++ ")".toList

/-- Fit test of line 136: `len(snippet) <= budget`. -/
abbrev pastFits (ctx : Ctx) (o : Oracle) : Prop :=
  ((pastSnippet (pickedPast ctx).1).length : ℤ) ≤ _budget_chars o.style ctx

/-- Fit test of line 144. -/
abbrev collocFits (ctx : Ctx) (o : Oracle) : Prop :=
  ((collocSnippet (pickedColloc ctx o).1).length : ℤ) ≤ _budget_chars o.style ctx

/-- Body of `render_reply` after the cooldown decay of line 101; `s` is
the already-decayed state.  The four branches are: the global veto
early return (lines 108-109), the accepted past link with its immediate
return before the trace block (lines 134-140), the accepted collocation
(lines 142-147) followed by the trace block, and the plain path followed
by the trace block. -/
def renderCore (s : RState) (sem : Semantics) (ctx : Ctx) (o : Oracle)
    (env : TraceEnv) : RenderResult :=
  if vetoCond ctx o then
    ⟨_decorate_with_voice o.style (baseText sem), s, none, none, TraceOut.skipped⟩
  else if usePast s ctx ∧ pastFits ctx o then
    ⟨_decorate_with_voice o.style (baseText sem) ++ pastSnippet (pickedPast ctx).1,
     { s with cooldownPast := 2, lastPast := (pickedPast ctx).1 },
     some (pickedPast ctx).1, none, TraceOut.skipped⟩
  else if useColloc s ctx o ∧ collocFits ctx o then
    ⟨_decorate_with_voice o.style (baseText sem) ++ collocSnippet (pickedColloc ctx o).1,
     { s with cooldownColloc := 2, lastColloc := (pickedColloc ctx o).1 },
     none, some (pickedColloc ctx o).1, tracePath env (resolveRule sem)⟩
  else
    ⟨_decorate_with_voice o.style (baseText sem), s, none, none,
     tracePath env (resolveRule sem)⟩

/-- Embedding of `render_reply` (lines 92-194): decay the cooldowns
first (line 101), then run the gate and selection on the decayed
state. -/
def render_reply (s0 : RState) (sem : Semantics) (ctx : Ctx) (o : Oracle)
    (env : TraceEnv) : RenderResult :=
  renderCore (_decrease_cooldowns s0) sem ctx o env

/-! ## Helper lemmas about characters and tokens -/

theorem lowerNat_idem (n : ℕ) : lowerNat (lowerNat n) = lowerNat n := by
  unfold lowerNat
  split_ifs <;> omega

theorem toNat_ofNat_of_lt {n : ℕ} (h : n < 55296) : (Char.ofNat n).toNat = n := by
  have hv : n.isValidChar := Or.inl h
  rw [Char.ofNat, dif_pos hv]
  simp [Char.ofNatAux, Char.toNat, UInt32.toNat]

theorem lowerNat_le (n : ℕ) : lowerNat n ≤ n + 32 := by
  unfold lowerNat; split_ifs <;> omega

theorem lowerNat_eq_self_of_gt {n : ℕ} (h : 222 < n) : lowerNat n = n := by
  unfold lowerNat; split_ifs <;> omega

theorem lowerChar_toNat (c : Char) : (lowerChar c).toNat = lowerNat c.toNat := by
  by_cases h : c.toNat ≤ 222
  · exact toNat_ofNat_of_lt (by have := lowerNat_le c.toNat; omega)
  · rw [lowerChar, lowerNat_eq_self_of_gt (by omega), Char.ofNat_toNat]

theorem lowerChar_idem (c : Char) : lowerChar (lowerChar c) = lowerChar c := by
  have h1 : (lowerChar (lowerChar c)).toNat = (lowerChar c).toNat := by
    rw [lowerChar_toNat, lowerChar_toNat, lowerNat_idem]
  calc lowerChar (lowerChar c)
      = Char.ofNat (lowerChar (lowerChar c)).toNat := (Char.ofNat_toNat _).symm
    _ = Char.ofNat (lowerChar c).toNat := by rw [h1]
    _ = lowerChar c := Char.ofNat_toNat _

/-- Characters of every run produced by `tokenRunsAux` satisfy
`isTokChar` and come from the current run or the remaining input. -/
theorem tokenRunsAux_chars (P : Char → Prop) :
    ∀ (l cur : List Char), (∀ c ∈ l, isTokChar c = true → P c) →
      (∀ c ∈ cur, isTokChar c = true ∧ P c) →
      ∀ t ∈ tokenRunsAux l cur, ∀ c ∈ t, isTokChar c = true ∧ P c := by
  intro l
  induction l with
  | nil =>
    intro cur _ hcur t ht c hc
    unfold tokenRunsAux at ht
    split at ht
    · simp at ht
    · simp only [List.mem_singleton] at ht
      subst ht
      exact hcur c (List.mem_reverse.mp hc)
  | cons a l ih =>
    intro cur hl hcur t ht c hc
    unfold tokenRunsAux at ht
    split_ifs at ht with h1 h2
    · exact ih (a :: cur)
        (fun x hx hxt => hl x (List.mem_cons_of_mem a hx) hxt)
        (by
          intro x hx
          rcases List.mem_cons.mp hx with rfl | hx
          · exact ⟨h1, hl x (by simp) h1⟩
          · exact hcur x hx) t ht c hc
    · exact ih [] (fun x hx hxt => hl x (List.mem_cons_of_mem a hx) hxt)
        (by simp) t ht c hc
    · rcases List.mem_cons.mp ht with rfl | ht
      · exact hcur c (List.mem_reverse.mp hc)
      · exact ih [] (fun x hx hxt => hl x (List.mem_cons_of_mem a hx) hxt)
          (by simp) t ht c hc

/-- Every token of `_tokens s` has length at least 3, consists of
regex-class characters only, and is fixed by lowercasing. -/
theorem tokens_spec (s : Str) :
    ∀ t ∈ _tokens s, 3 ≤ t.length ∧ t.map lowerChar = t ∧
      ∀ c ∈ t, isTokChar c = true := by
  intro t ht
  rw [_tokens, List.mem_toFinset, List.mem_filter] at ht
  obtain ⟨hruns, hlen⟩ := ht
  have hchars : ∀ c ∈ t, isTokChar c = true ∧ lowerChar c = c := by
    refine tokenRunsAux_chars (fun c => lowerChar c = c) (s.map lowerChar) [] ?_ (by simp)
      t hruns
    intro c hc _
    obtain ⟨c', _, rfl⟩ := List.mem_map.mp hc
    exact lowerChar_idem c'
  refine ⟨by simpa using hlen, ?_, fun c hc => (hchars c hc).1⟩
  calc t.map lowerChar = t.map id := List.map_congr_left (fun c hc => (hchars c hc).2)
    _ = t := List.map_id t

/-! ## Helper lemmas about the Jaccard score and past-moment selection -/

theorem pickLoop_nil (u : Finset Str) (acc : Str × ℚ) : pickLoop u [] acc = acc := rfl

theorem pickLoop_cons (u : Finset Str) (m : Str) (ms : List Str) (acc : Str × ℚ) :
    pickLoop u (m :: ms) acc =
      if _tokens m = ∅ then pickLoop u ms acc
      else if acc.2 < jaccard u (_tokens m) then
        pickLoop u ms (m, jaccard u (_tokens m))
      else pickLoop u ms acc := rfl

theorem jaccard_nonneg (u m : Finset Str) : 0 ≤ jaccard u m := by
  unfold jaccard
  positivity

theorem jaccard_empty_right (u : Finset Str) : jaccard u ∅ = 0 := by
  simp [jaccard]

/-- Invariant of the scan loop of `_pick_relevant_moment`: the final
score bounds every scanned score and the starting score; the best text
changes only on a strict improvement, in which case it is the earliest
element attaining the final score. -/
theorem pickLoop_spec (u : Finset Str) :
    ∀ (ms : List Str) (b : Str) (sc : ℚ), 0 ≤ sc →
      (∀ m ∈ ms, jaccard u (_tokens m) ≤ (pickLoop u ms (b, sc)).2) ∧
      sc ≤ (pickLoop u ms (b, sc)).2 ∧
      ((pickLoop u ms (b, sc)).2 = sc → (pickLoop u ms (b, sc)).1 = b) ∧
      (sc < (pickLoop u ms (b, sc)).2 →
        ∃ pre post, ms = pre ++ (pickLoop u ms (b, sc)).1 :: post ∧
          jaccard u (_tokens (pickLoop u ms (b, sc)).1) = (pickLoop u ms (b, sc)).2 ∧
          ∀ m ∈ pre, jaccard u (_tokens m) < (pickLoop u ms (b, sc)).2) := by
  intro ms
  induction ms with
  | nil =>
    intro b sc _
    refine ⟨by simp, le_refl _, fun _ => rfl, fun h => absurd h (lt_irrefl _)⟩
  | cons m ms ih =>
    intro b sc hsc
    by_cases htok : _tokens m = ∅
    · have hstep : pickLoop u (m :: ms) (b, sc) = pickLoop u ms (b, sc) := by
        rw [pickLoop_cons, if_pos htok]
      obtain ⟨hball, hle, heq, hex⟩ := ih b sc hsc
      rw [hstep]
      refine ⟨?_, hle, heq, ?_⟩
      · intro x hx
        rcases List.mem_cons.mp hx with rfl | hx
        · rw [htok, jaccard_empty_right]; linarith
        · exact hball x hx
      · intro hlt
        obtain ⟨pre, post, hms, hjac, hpre⟩ := hex hlt
        refine ⟨m :: pre, post, by rw [List.cons_append]; exact congrArg (List.cons m) hms, hjac, ?_⟩
        intro x hx
        rcases List.mem_cons.mp hx with rfl | hx
        · rw [htok, jaccard_empty_right]; linarith
        · exact hpre x hx
    · by_cases hlt : sc < jaccard u (_tokens m)
      · have hstep : pickLoop u (m :: ms) (b, sc) =
            pickLoop u ms (m, jaccard u (_tokens m)) := by
          rw [pickLoop_cons, if_neg htok, if_pos hlt]
        obtain ⟨hball, hle, heq, hex⟩ := ih m (jaccard u (_tokens m)) (jaccard_nonneg u _)
        rw [hstep]
        refine ⟨?_, by linarith, ?_, ?_⟩
        · intro x hx
          rcases List.mem_cons.mp hx with rfl | hx
          · exact hle
          · exact hball x hx
        · intro hfin
          exfalso; linarith
        · intro _
          rcases eq_or_lt_of_le hle with hcase | hcase
          · exact ⟨[], ms, by rw [List.nil_append, heq hcase.symm], by rw [heq hcase.symm, ← hcase],
              by simp⟩
          · obtain ⟨pre, post, hms, hjac, hpre⟩ := hex hcase
            refine ⟨m :: pre, post, by rw [List.cons_append]; exact congrArg (List.cons m) hms, hjac, ?_⟩
            intro x hx
            rcases List.mem_cons.mp hx with rfl | hx
            · linarith
            · exact hpre x hx
      · have hstep : pickLoop u (m :: ms) (b, sc) = pickLoop u ms (b, sc) := by
          rw [pickLoop_cons, if_neg htok, if_neg hlt]
        obtain ⟨hball, hle, heq, hex⟩ := ih b sc hsc
        push_neg at hlt
        rw [hstep]
        refine ⟨?_, hle, heq, ?_⟩
        · intro x hx
          rcases List.mem_cons.mp hx with rfl | hx
          · linarith
          · exact hball x hx
        · intro hfin
          obtain ⟨pre, post, hms, hjac, hpre⟩ := hex hfin
          refine ⟨m :: pre, post, by rw [List.cons_append]; exact congrArg (List.cons m) hms, hjac, ?_⟩
          intro x hx
          rcases List.mem_cons.mp hx with rfl | hx
          · linarith
          · exact hpre x hx

/-! ## Helper lemmas about `render_reply` -/

/-- Exhaustive case analysis of one `render_reply` call: global veto,
accepted past link, accepted collocation, or plain reply. -/
theorem render_cases (s0 : RState) (sem : Semantics) (ctx : Ctx) (o : Oracle)
    (env : TraceEnv) :
    (vetoCond ctx o ∧ render_reply s0 sem ctx o env =
      ⟨_decorate_with_voice o.style (baseText sem), _decrease_cooldowns s0,
        none, none, TraceOut.skipped⟩) ∨
    (¬vetoCond ctx o ∧ (usePast (_decrease_cooldowns s0) ctx ∧ pastFits ctx o) ∧
      render_reply s0 sem ctx o env =
      ⟨_decorate_with_voice o.style (baseText sem) ++ pastSnippet (pickedPast ctx).1,
        { _decrease_cooldowns s0 with cooldownPast := 2, lastPast := (pickedPast ctx).1 },
        some (pickedPast ctx).1, none, TraceOut.skipped⟩) ∨
    (¬vetoCond ctx o ∧ ¬(usePast (_decrease_cooldowns s0) ctx ∧ pastFits ctx o) ∧
      (useColloc (_decrease_cooldowns s0) ctx o ∧ collocFits ctx o) ∧
      render_reply s0 sem ctx o env =
      ⟨_decorate_with_voice o.style (baseText sem) ++ collocSnippet (pickedColloc ctx o).1,
        { _decrease_cooldowns s0 with cooldownColloc := 2, lastColloc := (pickedColloc ctx o).1 },
        none, some (pickedColloc ctx o).1, tracePath env (resolveRule sem)⟩) ∨
    (¬vetoCond ctx o ∧ ¬(usePast (_decrease_cooldowns s0) ctx ∧ pastFits ctx o) ∧
      ¬(useColloc (_decrease_cooldowns s0) ctx o ∧ collocFits ctx o) ∧
      render_reply s0 sem ctx o env =
      ⟨_decorate_with_voice o.style (baseText sem), _decrease_cooldowns s0,
        none, none, tracePath env (resolveRule sem)⟩) := by
  unfold render_reply renderCore
  split_ifs with h1 h2 h3
  · exact Or.inl ⟨h1, rfl⟩
  · exact Or.inr (Or.inl ⟨h1, h2, rfl⟩)
  · exact Or.inr (Or.inr (Or.inl ⟨h1, h2, h3, rfl⟩))
  · exact Or.inr (Or.inr (Or.inr ⟨h1, h2, h3, rfl⟩))

/-- The veto branch in isolation. -/
theorem render_veto (s0 : RState) (sem : Semantics) (ctx : Ctx) (o : Oracle)
    (env : TraceEnv) (h : vetoCond ctx o) :
    render_reply s0 sem ctx o env =
      ⟨_decorate_with_voice o.style (baseText sem), _decrease_cooldowns s0,
        none, none, TraceOut.skipped⟩ := by
  unfold render_reply renderCore
  rw [if_pos h]

theorem fallbackText_ne_nil : fallbackText ≠ [] := by decide

theorem baseText_ne_nil (sem : Semantics) : baseText sem ≠ [] := by
  unfold baseText
  split_ifs with h
  · exact fallbackText_ne_nil
  · exact h

theorem decorate_ne_nil (st : VoiceStyle) (t : Str) (ht : t ≠ []) :
    _decorate_with_voice st t ≠ [] := by
  simp only [_decorate_with_voice]
  split_ifs <;> simp_all

/-- A call that appends a past link: the text is the picked candidate,
it differs from the previous last-used past text, and it is recorded. -/
theorem usedPast_some_spec (s0 : RState) (sem : Semantics) (ctx : Ctx) (o : Oracle)
    (env : TraceEnv) (t : Str)
    (h : (render_reply s0 sem ctx o env).usedPast = some t) :
    t = (pickedPast ctx).1 ∧ t ≠ s0.lastPast ∧
      (render_reply s0 sem ctx o env).state.lastPast = t ∧
      (render_reply s0 sem ctx o env).state.cooldownPast = 2 ∧
      (render_reply s0 sem ctx o env).state.cooldownColloc =
        max 0 (s0.cooldownColloc - 0.34) ∧
      (render_reply s0 sem ctx o env).state.lastColloc = s0.lastColloc ∧
      (render_reply s0 sem ctx o env).usedColloc = none ∧
      (render_reply s0 sem ctx o env).trace = TraceOut.skipped ∧
      (render_reply s0 sem ctx o env).out =
        _decorate_with_voice o.style (baseText sem) ++ pastSnippet t := by
  rcases render_cases s0 sem ctx o env with ⟨_, hr⟩ | ⟨_, hu, hr⟩ | ⟨_, _, _, hr⟩ | ⟨_, _, _, hr⟩ <;>
    rw [hr] at h ⊢
  · simp at h
  · obtain rfl : t = (pickedPast ctx).1 := by simpa using h.symm
    refine ⟨rfl, ?_, rfl, rfl, rfl, rfl, rfl, rfl, rfl⟩
    exact hu.1.2.2.2.1
  · simp at h
  · simp at h

/-- A call that appends no past link leaves the past last-used text
unchanged and only decays the past cooldown. -/
theorem usedPast_none_spec (s0 : RState) (sem : Semantics) (ctx : Ctx) (o : Oracle)
    (env : TraceEnv) (h : (render_reply s0 sem ctx o env).usedPast = none) :
    (render_reply s0 sem ctx o env).state.lastPast = s0.lastPast ∧
      (render_reply s0 sem ctx o env).state.cooldownPast =
        max 0 (s0.cooldownPast - 0.34) := by
  rcases render_cases s0 sem ctx o env with ⟨_, hr⟩ | ⟨_, _, hr⟩ | ⟨_, _, _, hr⟩ | ⟨_, _, _, hr⟩ <;>
    rw [hr] at h ⊢ <;> first
  | exact ⟨rfl, rfl⟩
  | simp at h

/-- A call that appends a collocation: the text is the sampled
candidate, it differs from the previous last-used collocation, and it
is recorded. -/
theorem usedColloc_some_spec (s0 : RState) (sem : Semantics) (ctx : Ctx) (o : Oracle)
    (env : TraceEnv) (t : Str)
    (h : (render_reply s0 sem ctx o env).usedColloc = some t) :
    t = (pickedColloc ctx o).1 ∧ t ≠ s0.lastColloc ∧
      (render_reply s0 sem ctx o env).state.lastColloc = t ∧
      (render_reply s0 sem ctx o env).state.cooldownColloc = 2 ∧
      (render_reply s0 sem ctx o env).state.cooldownPast =
        max 0 (s0.cooldownPast - 0.34) ∧
      (render_reply s0 sem ctx o env).state.lastPast = s0.lastPast ∧
      (render_reply s0 sem ctx o env).usedPast = none ∧
      (render_reply s0 sem ctx o env).out =
        _decorate_with_voice o.style (baseText sem) ++ collocSnippet t := by
  rcases render_cases s0 sem ctx o env with ⟨_, hr⟩ | ⟨_, _, hr⟩ | ⟨_, _, hu, hr⟩ | ⟨_, _, _, hr⟩ <;>
    rw [hr] at h ⊢
  · simp at h
  · simp at h
  · obtain rfl : t = (pickedColloc ctx o).1 := by simpa using h.symm
    refine ⟨rfl, ?_, rfl, rfl, rfl, rfl, rfl, rfl⟩
    exact hu.1.2.2.2.2
  · simp at h

/-- A call that appends no collocation leaves the collocation last-used
text unchanged and only decays the collocation cooldown. -/
theorem usedColloc_none_spec (s0 : RState) (sem : Semantics) (ctx : Ctx) (o : Oracle)
    (env : TraceEnv) (h : (render_reply s0 sem ctx o env).usedColloc = none) :
    (render_reply s0 sem ctx o env).state.lastColloc = s0.lastColloc ∧
      (render_reply s0 sem ctx o env).state.cooldownColloc =
        max 0 (s0.cooldownColloc - 0.34) := by
  rcases render_cases s0 sem ctx o env with ⟨_, hr⟩ | ⟨_, _, hr⟩ | ⟨_, _, _, hr⟩ | ⟨_, _, _, hr⟩ <;>
    rw [hr] at h ⊢ <;> first
  | exact ⟨rfl, rfl⟩
  | simp at h

/-! ## Sequences of calls on one engine instance -/

/-- The per-call inputs of one `render_reply` invocation in a run. -/
structure Call where
  sem : Semantics
  ctx : Ctx
  o : Oracle
  env : TraceEnv

/-- One call of a run. -/
def stepCall (s : RState) (c : Call) : RenderResult :=
  render_reply s c.sem c.ctx c.o c.env

/-- Engine state after a sequence of calls. -/
def runState : RState → List Call → RState
  | s, [] => s
  | s, c :: cs => runState (stepCall s c).state cs

/-- The past-link texts used over a run, in order. -/
def pastUses : RState → List Call → List Str
  | _, [] => []
  | s, c :: cs =>
    match (stepCall s c).usedPast with
    | some t => t :: pastUses (stepCall s c).state cs
    | none => pastUses (stepCall s c).state cs

/-- The collocation texts used over a run, in order. -/
def collocUses : RState → List Call → List Str
  | _, [] => []
  | s, c :: cs =>
    match (stepCall s c).usedColloc with
    | some t => t :: collocUses (stepCall s c).state cs
    | none => collocUses (stepCall s c).state cs

theorem max_zero_sub_step (x y : ℚ) (hy : 0 ≤ y) :
    max 0 (max 0 x - y) = max 0 (x - y) := by
  rcases le_total x 0 with hx | hx
  · rw [max_eq_left hx, zero_sub, max_eq_left (by linarith), max_eq_left (by linarith)]
  · rw [max_eq_right hx]

/-- Post-state cooldowns are never negative. -/
theorem cooldowns_nonneg (s0 : RState) (sem : Semantics) (ctx : Ctx) (o : Oracle)
    (env : TraceEnv) :
    0 ≤ (render_reply s0 sem ctx o env).state.cooldownPast ∧
      0 ≤ (render_reply s0 sem ctx o env).state.cooldownColloc := by
  rcases render_cases s0 sem ctx o env with ⟨_, hr⟩ | ⟨_, _, hr⟩ | ⟨_, _, _, hr⟩ | ⟨_, _, _, hr⟩ <;>
    rw [hr] <;>
    exact ⟨by first | exact le_max_left 0 _ | norm_num,
           by first | exact le_max_left 0 _ | norm_num⟩

/-- Pure decay over a run with no past-link use. -/
theorem runState_past (calls : List Call) :
    ∀ s : RState, 0 ≤ s.cooldownPast → pastUses s calls = [] →
      (runState s calls).cooldownPast =
        max 0 (s.cooldownPast - 0.34 * calls.length) := by
  induction calls with
  | nil =>
    intro s hs _
    simp [runState, max_eq_right hs]
  | cons c cs ih =>
    intro s hs hu
    rw [pastUses] at hu
    rcases hcase : (stepCall s c).usedPast with _ | t
    · rw [hcase] at hu
      have hstep := (usedPast_none_spec s c.sem c.ctx c.o c.env hcase).2
      have hnn : 0 ≤ (stepCall s c).state.cooldownPast :=
        (cooldowns_nonneg s c.sem c.ctx c.o c.env).1
      rw [runState, ih (stepCall s c).state hnn hu]
      rw [show (stepCall s c).state.cooldownPast = max 0 (s.cooldownPast - 0.34) from hstep]
      rw [max_zero_sub_step _ _ (by positivity)]
      congr 1
      push_cast [List.length_cons]
      ring
    · rw [hcase] at hu
      exact absurd hu (List.cons_ne_nil t _)

/-- Pure decay over a run with no collocation use. -/
theorem runState_colloc (calls : List Call) :
    ∀ s : RState, 0 ≤ s.cooldownColloc → collocUses s calls = [] →
      (runState s calls).cooldownColloc =
        max 0 (s.cooldownColloc - 0.34 * calls.length) := by
  induction calls with
  | nil =>
    intro s hs _
    simp [runState, max_eq_right hs]
  | cons c cs ih =>
    intro s hs hu
    rw [collocUses] at hu
    rcases hcase : (stepCall s c).usedColloc with _ | t
    · rw [hcase] at hu
      have hstep := (usedColloc_none_spec s c.sem c.ctx c.o c.env hcase).2
      have hnn : 0 ≤ (stepCall s c).state.cooldownColloc :=
        (cooldowns_nonneg s c.sem c.ctx c.o c.env).2
      rw [runState, ih (stepCall s c).state hnn hu]
      rw [show (stepCall s c).state.cooldownColloc = max 0 (s.cooldownColloc - 0.34) from hstep]
      rw [max_zero_sub_step _ _ (by positivity)]
      congr 1
      push_cast [List.length_cons]
      ring
    · rw [hcase] at hu
      exact absurd hu (List.cons_ne_nil t _)

/-- Over any run, the previous past text followed by the used past texts
forms a chain of pairwise-different neighbours. -/
theorem pastUses_chain (calls : List Call) :
    ∀ s : RState, List.Chain' (fun a b => a ≠ b) (s.lastPast :: pastUses s calls) := by
  induction calls with
  | nil =>
    intro s
    simp [pastUses]
  | cons c cs ih =>
    intro s
    rw [pastUses]
    rcases hcase : (stepCall s c).usedPast with _ | t
    · have h2 := ih (stepCall s c).state
      rw [show (stepCall s c).state.lastPast = s.lastPast from
        (usedPast_none_spec s c.sem c.ctx c.o c.env hcase).1] at h2
      simpa using h2
    · have hspec := usedPast_some_spec s c.sem c.ctx c.o c.env t hcase
      have h2 := ih (stepCall s c).state
      rw [show (stepCall s c).state.lastPast = t from hspec.2.2.1] at h2
      simpa [List.chain'_cons] using ⟨Ne.symm hspec.2.1, h2⟩

/-- Over any run, the previous collocation text followed by the used
collocation texts forms a chain of pairwise-different neighbours. -/
theorem collocUses_chain (calls : List Call) :
    ∀ s : RState, List.Chain' (fun a b => a ≠ b) (s.lastColloc :: collocUses s calls) := by
  induction calls with
  | nil =>
    intro s
    simp [collocUses]
  | cons c cs ih =>
    intro s
    rw [collocUses]
    rcases hcase : (stepCall s c).usedColloc with _ | t
    · have h2 := ih (stepCall s c).state
      rw [show (stepCall s c).state.lastColloc = s.lastColloc from
        (usedColloc_none_spec s c.sem c.ctx c.o c.env hcase).1] at h2
      simpa using h2
    · have hspec := usedColloc_some_spec s c.sem c.ctx c.o c.env t hcase
      have h2 := ih (stepCall s c).state
      rw [show (stepCall s c).state.lastColloc = t from hspec.2.2.1] at h2
      simpa [List.chain'_cons] using ⟨Ne.symm hspec.2.1, h2⟩

/-! ## Concrete instances used by witnesses and counterexamples -/

/-- Freshly constructed engine state (renderer.py lines 18-19). -/
def sW : RState := ⟨0, 0, [], []⟩

/-- A plain semantics payload with no rule attached. -/
def semW : Semantics := ⟨some "Ça marche.".toList, none, none⟩

/-- A minimal context: no user style, no message, no moments, no topics. -/
def ctxW1 : Ctx := ⟨none, none, [], ∅⟩

/-- Oracle with a low policy confidence (0.3). -/
def oW1 : Oracle := ⟨some 0.3, [], 1, ⟨none, none, none, none⟩⟩

/-- Oracle with a high policy confidence (0.9) and no lexicon sample. -/
def oW2 : Oracle := ⟨some 0.9, [], 1, ⟨none, none, none, none⟩⟩

/-- A fully reachable, failure-free trace environment. -/
def envW : TraceEnv := ⟨true, true, false, false, false, false⟩

/-- Low confidence trips the global veto on any context. -/
theorem vetoW1 : vetoCond ctxW1 oW1 :=
  Or.inl (by norm_num [_confidence, oW1, THRESH_conf_min])

/-- A context whose key moment overlaps the last message on the tokens
"jardin" and "maison". -/
def ctxJ : Ctx :=
  ⟨some ⟨some true⟩, some "le jardin et la maison".toList,
    ["jardin maison projet".toList], ∅⟩

/-- Semantics for the past-link scenario. -/
def semJ : Semantics := ⟨some "Je comprends.".toList, none, none⟩

theorem jaccJ : jaccard (_tokens "le jardin et la maison".toList)
    (_tokens "jardin maison projet".toList) = 2 / 3 := by
  unfold jaccard
  rw [show (_tokens "le jardin et la maison".toList ∩
      _tokens "jardin maison projet".toList).card = 2 from by decide]
  rw [show (_tokens "le jardin et la maison".toList ∪
      _tokens "jardin maison projet".toList).card = 3 from by decide]
  norm_num

theorem pickJ : pickedPast ctxJ = ("jardin maison projet".toList, 2 / 3) := by
  have hcond : (([], 0) : Str × ℚ).2 < jaccard (_tokens "le jardin et la maison".toList)
      (_tokens "jardin maison projet".toList) := by
    rw [jaccJ]
    norm_num
  unfold pickedPast _pick_relevant_moment
  rw [show ctxJ.lastMessage.getD [] = "le jardin et la maison".toList from rfl,
    show ctxJ.keyMoments = ["jardin maison projet".toList] from rfl]
  rw [if_neg (by simp),
    show lastN 8 ["jardin maison projet".toList] = ["jardin maison projet".toList] from rfl]
  rw [pickLoop_cons, if_neg (by decide), if_pos hcond, pickLoop_nil, jaccJ]

theorem budgetJ : _budget_chars oW2.style ctxJ = 240 := by
  unfold _budget_chars budgetRaw userPrefersLong
  norm_num [ctxJ, oW2]

theorem vetoJ : ¬vetoCond ctxJ oW2 := by
  rintro (hc | hb | hp)
  · norm_num [_confidence, oW2, THRESH_conf_min] at hc
  · rw [budgetJ] at hb
    norm_num at hb
  · simp [userPrefersLong, ctxJ] at hp

theorem usePastJ : usePast (_decrease_cooldowns sW) ctxJ := by
  refine ⟨?_, ?_, ?_, ?_, ?_⟩
  · rw [pickJ]
    simp
  · rw [pickJ]
    norm_num [THRESH_past_relevance]
  · norm_num [_decrease_cooldowns, sW]
  · rw [pickJ]
    simp [_decrease_cooldowns, sW]
  · decide

theorem pastFitsJ : pastFits ctxJ oW2 := by
  show ((pastSnippet (pickedPast ctxJ).1).length : ℤ) ≤ _budget_chars oW2.style ctxJ
  rw [pickJ, budgetJ,
    show (pastSnippet ("jardin maison projet".toList, (2:ℚ)/3).1).length = 34 from by decide]
  norm_num

/-- The accepted-past-link branch in isolation. -/
theorem render_past_accept (s0 : RState) (sem : Semantics) (ctx : Ctx) (o : Oracle)
    (env : TraceEnv) (hnv : ¬vetoCond ctx o)
    (hu : usePast (_decrease_cooldowns s0) ctx) (hf : pastFits ctx o) :
    render_reply s0 sem ctx o env =
      ⟨_decorate_with_voice o.style (baseText sem) ++ pastSnippet (pickedPast ctx).1,
        { _decrease_cooldowns s0 with cooldownPast := 2, lastPast := (pickedPast ctx).1 },
        some (pickedPast ctx).1, none, TraceOut.skipped⟩ := by
  unfold render_reply renderCore
  rw [if_neg hnv, if_pos (And.intro hu hf)]

/-! ## The claims -/

/-- C1: if the confidence estimate is below 0.55, or the ornament
character budget is below 60, or the user style's `prefers_long` is
explicitly `False`, `render_reply` returns exactly the voice-decorated
base text with no ornament, unchanged trace state and only-decayed
cooldowns, regardless of candidate relevance, cooldown state or
randomness; and when the preference is absent the veto reduces to the
confidence and budget checks alone, so absence is not a veto. -/
theorem C1_global_veto_no_ornament (s0 : RState) (sem : Semantics) (ctx : Ctx)
    (o : Oracle) (env : TraceEnv) :
    (vetoCond ctx o →
      render_reply s0 sem ctx o env =
        ⟨_decorate_with_voice o.style (baseText sem), _decrease_cooldowns s0,
          none, none, TraceOut.skipped⟩) ∧
    (userPrefersLong ctx = none →
      (vetoCond ctx o ↔
        (_confidence o.policyConf < THRESH_conf_min ∨ _budget_chars o.style ctx < 60))) := by
  refine ⟨render_veto s0 sem ctx o env, ?_⟩
  intro h
  constructor
  · rintro (hc | hb | hp)
    · exact Or.inl hc
    · exact Or.inr hb
    · rw [h] at hp
      exact absurd hp (by simp)
  · rintro (hc | hb)
    · exact Or.inl hc
    · exact Or.inr (Or.inl hb)

/-- C1 witness: a concrete vetoed call (confidence 0.3). -/
theorem C1_witness :
    vetoCond ctxW1 oW1 ∧
      render_reply sW semW ctxW1 oW1 envW =
        ⟨_decorate_with_voice oW1.style (baseText semW), _decrease_cooldowns sW,
          none, none, TraceOut.skipped⟩ :=
  ⟨vetoW1, (C1_global_veto_no_ornament sW semW ctxW1 oW1 envW).1 vetoW1⟩

/-- C2: at most one ornament per call — the output is the decorated
base, or the decorated base followed by exactly one snippet; when a past
link is used its cooldown is set to 2.0, its text is recorded, the
collocation is not used and the trace block is skipped; and an eligible,
fitting past link is always used. -/
theorem C2_at_most_one_ornament (s0 : RState) (sem : Semantics) (ctx : Ctx)
    (o : Oracle) (env : TraceEnv) :
    (((render_reply s0 sem ctx o env).usedPast = none ∧
        (render_reply s0 sem ctx o env).usedColloc = none ∧
        (render_reply s0 sem ctx o env).out =
          _decorate_with_voice o.style (baseText sem)) ∨
      (∃ p, (render_reply s0 sem ctx o env).usedPast = some p ∧
        (render_reply s0 sem ctx o env).usedColloc = none ∧
        (render_reply s0 sem ctx o env).out =
          _decorate_with_voice o.style (baseText sem) ++ pastSnippet p) ∨
      (∃ c, (render_reply s0 sem ctx o env).usedPast = none ∧
        (render_reply s0 sem ctx o env).usedColloc = some c ∧
        (render_reply s0 sem ctx o env).out =
          _decorate_with_voice o.style (baseText sem) ++ collocSnippet c)) ∧
    (∀ p, (render_reply s0 sem ctx o env).usedPast = some p →
      p = (pickedPast ctx).1 ∧
        (render_reply s0 sem ctx o env).state.cooldownPast = 2 ∧
        (render_reply s0 sem ctx o env).state.lastPast = p ∧
        (render_reply s0 sem ctx o env).usedColloc = none ∧
        (render_reply s0 sem ctx o env).trace = TraceOut.skipped ∧
        (render_reply s0 sem ctx o env).state.cooldownColloc =
          max 0 (s0.cooldownColloc - 0.34) ∧
        (render_reply s0 sem ctx o env).state.lastColloc = s0.lastColloc) ∧
    (¬vetoCond ctx o → usePast (_decrease_cooldowns s0) ctx → pastFits ctx o →
      (render_reply s0 sem ctx o env).usedPast = some (pickedPast ctx).1) := by
  refine ⟨?_, ?_, ?_⟩
  · rcases render_cases s0 sem ctx o env with ⟨_, hr⟩ | ⟨_, _, hr⟩ | ⟨_, _, _, hr⟩ | ⟨_, _, _, hr⟩ <;>
      rw [hr]
    · exact Or.inl ⟨rfl, rfl, rfl⟩
    · exact Or.inr (Or.inl ⟨(pickedPast ctx).1, rfl, rfl, rfl⟩)
    · exact Or.inr (Or.inr ⟨(pickedColloc ctx o).1, rfl, rfl, rfl⟩)
    · exact Or.inl ⟨rfl, rfl, rfl⟩
  · intro p hp
    have h := usedPast_some_spec s0 sem ctx o env p hp
    exact ⟨h.1, h.2.2.2.1, h.2.2.1, h.2.2.2.2.2.2.1, h.2.2.2.2.2.2.2.1, h.2.2.2.2.1,
      h.2.2.2.2.2.1⟩
  · intro hnv hu hf
    rw [render_past_accept s0 sem ctx o env hnv hu hf]

/-- C2 witness: the overlapping-moment scenario accepts the past link. -/
theorem C2_witness :
    (render_reply sW semJ ctxJ oW2 envW).usedPast = some (pickedPast ctxJ).1 :=
  (C2_at_most_one_ornament sW semJ ctxJ oW2 envW).2.2 vetoJ usePastJ pastFitsJ

/-- C3: the returned string is non-empty, starts with the
voice-decorated base text (ornaments are only ever appended), and the
base text is the stripped `text` value or the fixed fallback sentence
when that value is absent or blank. -/
theorem C3_base_prefix_nonempty (s0 : RState) (sem : Semantics) (ctx : Ctx)
    (o : Oracle) (env : TraceEnv) :
    (render_reply s0 sem ctx o env).out ≠ [] ∧
    (∃ orn, (render_reply s0 sem ctx o env).out =
      _decorate_with_voice o.style (baseText sem) ++ orn) ∧
    baseText sem = (if pyStrip (sem.text?.getD []) = [] then fallbackText
      else pyStrip (sem.text?.getD [])) := by
  have hd := decorate_ne_nil o.style (baseText sem) (baseText_ne_nil sem)
  have hshape : ∃ orn, (render_reply s0 sem ctx o env).out =
      _decorate_with_voice o.style (baseText sem) ++ orn := by
    rcases render_cases s0 sem ctx o env with ⟨_, hr⟩ | ⟨_, _, hr⟩ | ⟨_, _, _, hr⟩ | ⟨_, _, _, hr⟩ <;>
      rw [hr]
    · exact ⟨[], by simp⟩
    · exact ⟨pastSnippet (pickedPast ctx).1, rfl⟩
    · exact ⟨collocSnippet (pickedColloc ctx o).1, rfl⟩
    · exact ⟨[], by simp⟩
  obtain ⟨orn, ho⟩ := hshape
  refine ⟨?_, ⟨orn, ho⟩, rfl⟩
  rw [ho]
  intro hnil
  exact hd (List.append_eq_nil.mp hnil).1

/-- C3 witness: a concrete call has a non-empty reply. -/
theorem C3_witness : (render_reply sW semW ctxW1 oW1 envW).out ≠ [] :=
  (C3_base_prefix_nonempty sW semW ctxW1 oW1 envW).1

/-- A rule carrying a resolvable identifier. -/
def ruleC4 : RuleInfo := ⟨"r1".toList, true⟩

/-- Semantics with `ruleC4` attached under the `rule` key. -/
def semC4 : Semantics := ⟨some "ok".toList, some ruleC4, none⟩

/-- C4 counterexample: a call whose semantics carry a rule with a
resolvable identifier, with the memory store fully reachable, yet no
decision-trace record is written and the rule is not marked used,
because the low-confidence veto returns before the trace block. -/
theorem C4_counterexample :
    resolveRule semC4 = some ruleC4 ∧ ruleC4.rid ≠ [] ∧
      envW.archPresent = true ∧ envW.memoryPresent = true ∧
      (render_reply sW semC4 ctxW1 oW1 envW).trace = TraceOut.skipped := by
  refine ⟨rfl, by decide, rfl, rfl, ?_⟩
  rw [render_veto sW semC4 ctxW1 oW1 envW vetoW1]

/-- C4 (amended): the trace environment never influences the returned
text, the state or the ornament decisions; on every call that does not
return early (global veto or accepted past link), the trace path runs on
the resolved rule; and when the rule resolves to a truthy identifier
with everything reachable and no failure, the trace record is written
and — when the rule supports usage registration — the rule is marked
used and its payload persisted.  Any injected failure only truncates the
writes, never the reply. -/
theorem C4_trace_best_effort (s0 : RState) (sem : Semantics) (ctx : Ctx)
    (o : Oracle) (env env2 : TraceEnv) :
    ((render_reply s0 sem ctx o env).out = (render_reply s0 sem ctx o env2).out ∧
      (render_reply s0 sem ctx o env).state = (render_reply s0 sem ctx o env2).state ∧
      (render_reply s0 sem ctx o env).usedPast = (render_reply s0 sem ctx o env2).usedPast ∧
      (render_reply s0 sem ctx o env).usedColloc = (render_reply s0 sem ctx o env2).usedColloc) ∧
    (¬vetoCond ctx o → ¬(usePast (_decrease_cooldowns s0) ctx ∧ pastFits ctx o) →
      (render_reply s0 sem ctx o env).trace = tracePath env (resolveRule sem)) ∧
    (∀ ru, resolveRule sem = some ru → ru.rid ≠ [] →
      env.archPresent = true → env.memoryPresent = true →
      env.buildFails = false → env.addTraceFails = false →
      env.registerUseFails = false → env.persistFails = false →
      tracePath env (resolveRule sem) = ⟨true, ru.hasRegisterUse, ru.hasRegisterUse⟩) := by
  refine ⟨?_, ?_, ?_⟩
  · unfold render_reply renderCore
    split_ifs <;> exact ⟨rfl, rfl, rfl, rfl⟩
  · intro hnv hnp
    unfold render_reply renderCore
    rw [if_neg hnv, if_neg hnp]
    split_ifs <;> rfl
  · intro ru hres h1 h2 h3 h4 h5 h6 h7
    rw [hres]
    simp only [tracePath]
    rw [if_neg h1, if_neg (by simp [h2, h3]), if_neg (by simp [h4]), if_neg (by simp [h5])]
    cases hreg : ru.hasRegisterUse
    · simp [hreg]
    · simp [hreg, h6, h7]

/-- Semantics with a rule attached under the `interaction_rule` key. -/
def semR : Semantics := ⟨some "ok".toList, none, some ⟨"r2".toList, true⟩⟩

/-- C4 witness: on a call that reaches the end of the function with a
resolvable rule and no failure, the trace is written, the rule marked
used, and its payload persisted. -/
theorem C4_witness :
    (render_reply sW semR ctxW1 oW2 envW).trace = tracePath envW (resolveRule semR) ∧
      tracePath envW (resolveRule semR) = ⟨true, true, true⟩ := by
  have hnv : ¬vetoCond ctxW1 oW2 := by
    rintro (hc | hb | hp)
    · norm_num [_confidence, oW2, THRESH_conf_min] at hc
    · rw [show _budget_chars oW2.style ctxW1 = 160 from by
        unfold _budget_chars budgetRaw
        rw [show userPrefersLong ctxW1 = none from rfl,
          if_neg (by simp), if_neg (by norm_num [oW2])]
        decide] at hb
      norm_num at hb
    · simp [userPrefersLong, ctxW1] at hp
  have hnp : ¬(usePast (_decrease_cooldowns sW) ctxW1 ∧ pastFits ctxW1 oW2) := by
    rintro ⟨hu, _⟩
    exact hu.1 rfl
  have h := C4_trace_best_effort sW semR ctxW1 oW2 envW envW
  exact ⟨h.2.1 hnv hnp, h.2.2 ⟨"r2".toList, true⟩ rfl (by decide) rfl rfl rfl rfl rfl rfl⟩

/-- C5 (amended): the collocation attempt probability is
`chance_colloc * (0.6 + 0.6 * confidence)` with `chance_colloc = 0.35`,
which is 0.21 at confidence 0 and 0.42 (not 0.56) at confidence 1, and
stays within [0.21, 0.42] for confidence in [0, 1]. -/
theorem C5_attempt_probability (conf : ℚ) :
    p_try THRESH_chance_colloc conf = 0.35 * (0.6 + 0.6 * conf) ∧
    p_try THRESH_chance_colloc 0 = 0.21 ∧
    p_try THRESH_chance_colloc 1 = 0.42 ∧
    (0 ≤ conf → conf ≤ 1 →
      0.21 ≤ p_try THRESH_chance_colloc conf ∧ p_try THRESH_chance_colloc conf ≤ 0.42) := by
  unfold p_try THRESH_chance_colloc
  refine ⟨rfl, by norm_num, by norm_num, ?_⟩
  intro h0 h1
  constructor <;> nlinarith

/-- C5 counterexample: at confidence 1 the attempt probability is 0.42,
not the 0.56 stated by the claim. -/
theorem C5_counterexample :
    p_try THRESH_chance_colloc 1 = 0.42 ∧ ¬(p_try THRESH_chance_colloc 1 = 0.56) := by
  unfold p_try THRESH_chance_colloc
  norm_num

/-- C5 witness: the bounds hold at confidence one half. -/
theorem C5_witness :
    0.21 ≤ p_try THRESH_chance_colloc 0.5 ∧ p_try THRESH_chance_colloc 0.5 ≤ 0.42 :=
  (C5_attempt_probability 0.5).2.2.2 (by norm_num) (by norm_num)

/-- C6: tokens are lowercase regex-class strings of length at least 3,
and the relevance score is the Jaccard similarity of the two token sets:
intersection over union whenever the union is non-empty, and 0 (not an
error) when both token sets are empty, thanks to the floored
denominator. -/
theorem C6_jaccard_similarity (a b : Str) :
    (∀ t ∈ _tokens a, 3 ≤ t.length ∧ t.map lowerChar = t ∧
      ∀ c ∈ t, isTokChar c = true) ∧
    (_tokens a = ∅ ∧ _tokens b = ∅ → jaccard (_tokens a) (_tokens b) = 0) ∧
    ((_tokens a ∪ _tokens b).Nonempty →
      jaccard (_tokens a) (_tokens b) =
        ((_tokens a ∩ _tokens b).card : ℚ) / ((_tokens a ∪ _tokens b).card : ℚ)) := by
  refine ⟨tokens_spec a, ?_, ?_⟩
  · rintro ⟨ha, hb⟩
    rw [ha, hb]
    simp [jaccard]
  · intro hne
    unfold jaccard
    rw [max_eq_right]
    exact_mod_cast Nat.one_le_iff_ne_zero.mpr (Nat.pos_iff_ne_zero.mp
      (Finset.card_pos.mpr hne))

/-- C6 witness: on a concrete pair with a non-empty union the score is
the plain Jaccard ratio. -/
theorem C6_witness :
    jaccard (_tokens "Le jardin".toList) (_tokens "jardin fleuri".toList) =
      ((_tokens "Le jardin".toList ∩ _tokens "jardin fleuri".toList).card : ℚ) /
        ((_tokens "Le jardin".toList ∪ _tokens "jardin fleuri".toList).card : ℚ) :=
  (C6_jaccard_similarity "Le jardin".toList "jardin fleuri".toList).2.2 (by decide)

/-- C7: past-moment matching considers only the last 8 moments, the
returned score is an upper bound of every candidate score and is
non-negative; a zero score comes with the empty string; and a positive
score is attained by the returned text, which is the earliest element of
the window attaining it (every earlier element scores strictly less). -/
theorem C7_past_moment_selection (msg : Str) (moments : List Str) :
    _pick_relevant_moment msg moments = _pick_relevant_moment msg (lastN 8 moments) ∧
    (∀ m ∈ lastN 8 moments,
      jaccard (_tokens msg) (_tokens m) ≤ (_pick_relevant_moment msg moments).2) ∧
    0 ≤ (_pick_relevant_moment msg moments).2 ∧
    ((_pick_relevant_moment msg moments).2 = 0 →
      (_pick_relevant_moment msg moments).1 = []) ∧
    (0 < (_pick_relevant_moment msg moments).2 →
      ∃ pre post, lastN 8 moments = pre ++ (_pick_relevant_moment msg moments).1 :: post ∧
        jaccard (_tokens msg) (_tokens (_pick_relevant_moment msg moments).1) =
          (_pick_relevant_moment msg moments).2 ∧
        ∀ m ∈ pre, jaccard (_tokens msg) (_tokens m) <
          (_pick_relevant_moment msg moments).2) := by
  by_cases hmom : moments = []
  · subst hmom
    refine ⟨rfl, by simp [lastN], by simp [_pick_relevant_moment], ?_, ?_⟩
    · intro _
      simp [_pick_relevant_moment]
    · intro h
      rw [show (_pick_relevant_moment msg []).2 = 0 from by simp [_pick_relevant_moment]] at h
      exact absurd h (lt_irrefl 0)
  · have hlen : moments.length ≠ 0 := fun h => hmom (List.length_eq_zero.mp h)
    have hlast : lastN 8 moments ≠ [] := by
      unfold lastN
      rw [Ne, List.drop_eq_nil_iff]
      omega
    have h88 : lastN 8 (lastN 8 moments) = lastN 8 moments := by
      unfold lastN
      rw [List.length_drop, show moments.length - (moments.length - 8) - 8 = 0 from by omega,
        List.drop_zero]
    have hunf : _pick_relevant_moment msg moments =
        pickLoop (_tokens msg) (lastN 8 moments) ([], 0) := by
      unfold _pick_relevant_moment
      rw [if_neg hmom]
    have hunf2 : _pick_relevant_moment msg (lastN 8 moments) =
        pickLoop (_tokens msg) (lastN 8 moments) ([], 0) := by
      unfold _pick_relevant_moment
      rw [if_neg hlast, h88]
    obtain ⟨hball, hle, heq, hex⟩ :=
      pickLoop_spec (_tokens msg) (lastN 8 moments) [] 0 (le_refl 0)
    rw [hunf, hunf2]
    exact ⟨rfl, hball, hle, heq, hex⟩

/-- Message and window for the C7 witness: no token overlap. -/
def msg7 : Str := "zut alors".toList

/-- Single-moment window for the C7 witness. -/
def moms7 : List Str := ["abc def".toList]

/-- C7 witness: with no overlapping tokens the selection returns the
empty string with score 0. -/
theorem C7_witness :
    (_pick_relevant_moment msg7 moms7).2 = 0 ∧ (_pick_relevant_moment msg7 moms7).1 = [] := by
  have hj : jaccard (_tokens msg7) (_tokens ("abc def".toList)) = 0 := by
    unfold jaccard
    rw [show (_tokens msg7 ∩ _tokens ("abc def".toList)).card = 0 from by decide]
    simp
  have hr : (_pick_relevant_moment msg7 moms7).2 = 0 := by
    unfold _pick_relevant_moment
    rw [if_neg (by simp [moms7]), show lastN 8 moms7 = ["abc def".toList] from rfl]
    rw [pickLoop_cons, if_neg (by decide), if_neg (by rw [show ((([], 0) : Str × ℚ)).2 = 0 from rfl, hj]; norm_num),
      pickLoop_nil]
  exact ⟨hr, (C7_past_moment_selection msg7 moms7).2.2.2.1 hr⟩

/-- C8: every call decays both cooldown levels by 0.34 (floored at 0)
before the gate runs on the decayed state, the resulting levels are
never negative, a call that uses no ornament of a kind leaves exactly
the decayed level for that kind, and over any run of N calls with no use
of a kind the level is `max 0 (initial - 0.34 * N)`. -/
theorem C8_cooldown_decay (s0 : RState) (sem : Semantics) (ctx : Ctx) (o : Oracle)
    (env : TraceEnv) (calls : List Call) :
    (0 ≤ (render_reply s0 sem ctx o env).state.cooldownPast ∧
      0 ≤ (render_reply s0 sem ctx o env).state.cooldownColloc) ∧
    render_reply s0 sem ctx o env = renderCore (_decrease_cooldowns s0) sem ctx o env ∧
    _decrease_cooldowns s0 =
      { s0 with cooldownPast := max 0 (s0.cooldownPast - 0.34),
                cooldownColloc := max 0 (s0.cooldownColloc - 0.34) } ∧
    ((render_reply s0 sem ctx o env).usedPast = none →
      (render_reply s0 sem ctx o env).state.cooldownPast =
        max 0 (s0.cooldownPast - 0.34)) ∧
    ((render_reply s0 sem ctx o env).usedColloc = none →
      (render_reply s0 sem ctx o env).state.cooldownColloc =
        max 0 (s0.cooldownColloc - 0.34)) ∧
    (0 ≤ s0.cooldownPast → pastUses s0 calls = [] →
      (runState s0 calls).cooldownPast =
        max 0 (s0.cooldownPast - 0.34 * calls.length)) ∧
    (0 ≤ s0.cooldownColloc → collocUses s0 calls = [] →
      (runState s0 calls).cooldownColloc =
        max 0 (s0.cooldownColloc - 0.34 * calls.length)) :=
  ⟨cooldowns_nonneg s0 sem ctx o env, rfl, rfl,
    fun h => (usedPast_none_spec s0 sem ctx o env h).2,
    fun h => (usedColloc_none_spec s0 sem ctx o env h).2,
    fun h0 h => runState_past calls s0 h0 h,
    fun h0 h => runState_colloc calls s0 h0 h⟩

/-- Engine state with a half-spent past cooldown. -/
def sX : RState := ⟨0.5, 0, [], []⟩

/-- One vetoed call (low confidence), used twice in the C8 witness run. -/
def callV : Call := ⟨semW, ctxW1, oW1, envW⟩

/-- C8 witness: two consecutive no-ornament calls take a past cooldown
of 0.5 to `max 0 (0.5 - 0.34 * 2)`. -/
theorem C8_witness :
    pastUses sX [callV, callV] = [] ∧
      (runState sX [callV, callV]).cooldownPast =
        max 0 (sX.cooldownPast - 0.34 * ([callV, callV] : List Call).length) := by
  have hstep : ∀ s : RState, (stepCall s callV).usedPast = none := by
    intro s
    rw [show stepCall s callV = render_reply s semW ctxW1 oW1 envW from rfl,
      render_veto s semW ctxW1 oW1 envW vetoW1]
  have hpu : pastUses sX [callV, callV] = [] := by
    simp only [pastUses, hstep]
  exact ⟨hpu, (C8_cooldown_decay sX semW ctxW1 oW1 envW [callV, callV]).2.2.2.2.2.1
    (by norm_num [sX]) hpu⟩

/-- C9: an ornament of a kind is used only when its text differs from
the recorded last-used text of that kind, and the new text is recorded;
consequently, over any sequence of calls on one engine instance, the
texts used for one kind — starting from the recorded last-used text —
are pairwise different between consecutive uses. -/
theorem C9_no_immediate_repetition (s0 : RState) (sem : Semantics) (ctx : Ctx)
    (o : Oracle) (env : TraceEnv) (calls : List Call) :
    (∀ t, (render_reply s0 sem ctx o env).usedPast = some t →
      t ≠ s0.lastPast ∧ (render_reply s0 sem ctx o env).state.lastPast = t) ∧
    (∀ t, (render_reply s0 sem ctx o env).usedColloc = some t →
      t ≠ s0.lastColloc ∧ (render_reply s0 sem ctx o env).state.lastColloc = t) ∧
    List.Chain' (fun a b => a ≠ b) (s0.lastPast :: pastUses s0 calls) ∧
    List.Chain' (fun a b => a ≠ b) (s0.lastColloc :: collocUses s0 calls) :=
  ⟨fun t h => ⟨(usedPast_some_spec s0 sem ctx o env t h).2.1,
      (usedPast_some_spec s0 sem ctx o env t h).2.2.1⟩,
    fun t h => ⟨(usedColloc_some_spec s0 sem ctx o env t h).2.1,
      (usedColloc_some_spec s0 sem ctx o env t h).2.2.1⟩,
    pastUses_chain calls s0, collocUses_chain calls s0⟩

/-- C9 witness: in the accepted-past-link scenario the used text differs
from the last-used text and becomes the new last-used text. -/
theorem C9_witness :
    (pickedPast ctxJ).1 ≠ sW.lastPast ∧
      (render_reply sW semJ ctxJ oW2 envW).state.lastPast = (pickedPast ctxJ).1 := by
  have hsome : (render_reply sW semJ ctxJ oW2 envW).usedPast = some (pickedPast ctxJ).1 := by
    rw [render_past_accept sW semJ ctxJ oW2 envW vetoJ usePastJ pastFitsJ]
  exact (C9_no_immediate_repetition sW semJ ctxJ oW2 envW []).1 (pickedPast ctxJ).1 hsome

/-- C10: the ornament character budget is always at least 100 (so also
at least 60), the clamp `max(0, ...)` never changes the value, and the
`budget < 60` disjunct of the global veto is redundant: the veto is
equivalent to the confidence check together with the explicit
`prefers_long is False` check. -/
theorem C10_budget_at_least_100 (ctx : Ctx) (o : Oracle) :
    100 ≤ _budget_chars o.style ctx ∧ 60 ≤ _budget_chars o.style ctx ∧
    _budget_chars o.style ctx = budgetRaw o.style ctx ∧
    (vetoCond ctx o ↔
      (_confidence o.policyConf < THRESH_conf_min ∨ userPrefersLong ctx = some false)) := by
  have h100 : 100 ≤ budgetRaw o.style ctx := by
    unfold budgetRaw
    split_ifs <;> norm_num
  have heq : _budget_chars o.style ctx = budgetRaw o.style ctx :=
    max_eq_right (by linarith)
  refine ⟨by rw [heq]; exact h100, by rw [heq]; linarith, heq, ?_⟩
  constructor
  · rintro (hc | hb | hp)
    · exact Or.inl hc
    · rw [heq] at hb
      linarith
    · exact Or.inr hp
  · rintro (hc | hp)
    · exact Or.inl hc
    · exact Or.inr (Or.inr hp)

/-- C10 witness: the lower bound at a concrete context and oracle. -/
theorem C10_witness : 100 ≤ _budget_chars oW1.style ctxW1 :=
  (C10_budget_at_least_100 ctxW1 oW1).1
